import Mathlib

/-!
Verification of the rules-compiler chunking, event-dispatch and file-lock
subsystems (`src/rules-compiler-rust/src/chunking.rs`,
`src/rules-compiler-rust/src/events.rs`).

The Rust code is shallowly embedded: pure functions become Lean functions,
`usize` becomes `Nat`, `Vec<T>` becomes `List T`, `HashSet<String>` becomes a
`List String` used as a set, fallible operations return `Option`/`Except`,
and the I/O environment of a chunk execution (temp-file writes, executable
resolution, process output, output-file reads) is abstracted into an explicit
environment record that fixes the result of each I/O step.  Operations that
panic in Rust (division by zero, `Iterator::step_by` with step 0) return
`none`.  Wall-clock measurements (`Instant`, elapsed milliseconds, f64
durations) are modelled as `Nat` constants, since no verified property
depends on them.
-/

namespace RulesCompiler

/-! ## Merger (`merge_chunks` in chunking.rs) -/

/-- A line is "structural" when, after trimming, it is empty or starts with
`!` or `#`; `merge_chunks` keeps such lines without deduplication. -/
def isStructural (s : String) : Bool :=
  s.trim.isEmpty || s.trim.startsWith "!" || s.trim.startsWith "#"

/-- The deduplication loop of `merge_chunks`: walks the flattened rule list
keeping a seen-set (modelled as a list) keyed by the raw line. -/
def mergeLoop (seen : List String) : List String → List String
  | [] => []
  | r :: rs =>
    if isStructural r then r :: mergeLoop seen rs
    else if r ∈ seen then mergeLoop seen rs
    else r :: mergeLoop (r :: seen) rs

/-- `merge_chunks`: flatten the chunk outputs in chunk order, deduplicate
preserving order, and report `total_before - deduplicated.len()`. -/
def merge_chunks (chunk_results : List (List String)) : List String × Nat :=
  let all_rules := chunk_results.flatten
  let deduplicated := mergeLoop [] all_rules
  let total_before := (chunk_results.map List.length).sum
  (deduplicated, total_before - deduplicated.length)

/-- Reference merge written from the specification text: scanning the
concatenated lines, an occurrence at position `i` is kept iff its line is
structural or its raw line does not occur among the lines before it (so a
non-structural line survives exactly at its first occurrence).  `pre` is the
list of lines already scanned. -/
def keepSpec (pre : List String) : List String → List String
  | [] => []
  | r :: rs =>
    if isStructural r = true ∨ r ∉ pre then r :: keepSpec (pre ++ [r]) rs
    else keepSpec (pre ++ [r]) rs

/-! ## Configuration data model (config.rs) -/

/-- `SourceType` from config.rs. -/
inductive SourceType where
  | adblock
  | hosts
deriving DecidableEq

/-- `ConfigFormat` from config.rs (paths are modelled as strings). -/
inductive ConfigFormat where
  | json
  | yaml
  | toml
deriving DecidableEq

/-- `FilterSource` from config.rs. -/
structure FilterSource where
  name : String
  source : String
  source_type : SourceType
  transformations : List String
  inclusions : List String
  exclusions : List String
deriving DecidableEq

/-- `FilterSource::new`. -/
def FilterSource.new (name source : String) : FilterSource :=
  { name := name, source := source, source_type := .adblock,
    transformations := [], inclusions := [], exclusions := [] }

/-- `CompilerConfig` from config.rs. -/
structure CompilerConfig where
  name : String
  description : String
  homepage : String
  license : String
  version : String
  sources : List FilterSource
  transformations : List String
  inclusions : List String
  exclusions : List String
  source_format : Option ConfigFormat
  source_path : Option String
deriving DecidableEq

/-- `CompilerConfig::new`: empty configuration with the given name. -/
def CompilerConfig.new (name : String) : CompilerConfig :=
  { name := name, description := "", homepage := "", license := "", version := "",
    sources := [], transformations := [], inclusions := [], exclusions := [],
    source_format := none, source_path := none }

/-- `CompilerConfig::with_source`. -/
def CompilerConfig.with_source (c : CompilerConfig) (s : FilterSource) : CompilerConfig :=
  { c with sources := c.sources ++ [s] }

/-! ## Chunk planning (chunking.rs) -/

/-- `ChunkingStrategy`. -/
inductive ChunkingStrategy where
  | source
  | lineCount
deriving DecidableEq

/-- `ChunkingOptions` (the `max_parallel` default is
`available_parallelism`, an environment value, so no `Default` instance is
modelled; all claims quantify over the options). -/
structure ChunkingOptions where
  enabled : Bool
  chunk_size : Nat
  max_parallel : Nat
  strategy : ChunkingStrategy
deriving DecidableEq

/-- `ChunkingOptions::with_enabled`. -/
def ChunkingOptions.with_enabled (o : ChunkingOptions) (enabled : Bool) : ChunkingOptions :=
  { o with enabled := enabled }

/-- `ChunkingOptions::with_max_parallel` (accepts any value, including 0). -/
def ChunkingOptions.with_max_parallel (o : ChunkingOptions) (max_parallel : Nat) :
    ChunkingOptions :=
  { o with max_parallel := max_parallel }

/-- `ChunkMetadata`. -/
structure ChunkMetadata where
  index : Nat
  total : Nat
  estimated_rules : Nat
  actual_rules : Option Nat
  sources : List FilterSource
  elapsed_ms : Option Nat
  success : Bool
  error_message : Option String
  output_path : Option String
deriving DecidableEq

/-- `ChunkMetadata::default()`. -/
def ChunkMetadata.default : ChunkMetadata :=
  { index := 0, total := 0, estimated_rules := 0, actual_rules := none,
    sources := [], elapsed_ms := none, success := false,
    error_message := none, output_path := none }

/-- `should_enable_chunking`: mirrors the Rust control flow.  Inside the
`if let Some(opts)` block both branches return, so the strategy-based default
is only reached when no options are provided (there the strategy defaults to
`Source`). -/
def should_enable_chunking (config : CompilerConfig)
    (options : Option ChunkingOptions) : Bool :=
  if config.sources.isEmpty then
    false
  else
    match options with
    | some opts => if opts.enabled = false then false else true
    | none =>
      let strategy := ChunkingStrategy.source
      if strategy = ChunkingStrategy.source ∧ 1 < config.sources.length then true
      else false

/-- The `sources_per_chunk` value of `split_by_source`:
`max(1, ceil(len(sources) / max_parallel))`, where the ceiling division is
`(len + max_parallel - 1) / max_parallel` exactly as in the Rust code. -/
def sourcesPerChunk (config : CompilerConfig) (options : ChunkingOptions) : Nat :=
  max 1 ((config.sources.length + options.max_parallel - 1) / options.max_parallel)

/-- The `total_chunks` value of `split_by_source`:
`ceil(len(sources) / sources_per_chunk)`. -/
def totalChunksOf (config : CompilerConfig) (options : ChunkingOptions) : Nat :=
  (config.sources.length + sourcesPerChunk config options - 1)
    / sourcesPerChunk config options

/-- The loop body of `split_by_source` for index `i`: the contiguous slice
`sources[i*spc .. min((i+1)*spc, len)]` (written with `drop`/`take`), a
sub-config copying every field but the suffixed name, and fresh metadata. -/
def chunkAt (config : CompilerConfig) (spc total_chunks i : Nat) :
    CompilerConfig × ChunkMetadata :=
  let chunk_sources := (config.sources.drop (i * spc)).take spc
  let chunk_config : CompilerConfig := { config with
    name := config.name ++ " (chunk " ++ toString (i + 1) ++ "/"
      ++ toString total_chunks ++ ")",
    sources := chunk_sources }
  let metadata : ChunkMetadata := { ChunkMetadata.default with
    index := i, total := total_chunks, estimated_rules := 0,
    sources := chunk_sources }
  (chunk_config, metadata)

/-- `split_by_source`.  The Rust body divides by `options.max_parallel`;
`usize` division by zero panics, modelled as `none`. -/
def split_by_source (config : CompilerConfig) (options : ChunkingOptions) :
    Option (List (CompilerConfig × ChunkMetadata)) :=
  if options.max_parallel = 0 then none
  else
    some ((List.range (totalChunksOf config options)).map
      (chunkAt config (sourcesPerChunk config options) (totalChunksOf config options)))

/-- `split_into_chunks`: empty source list short-circuits to no chunks (before
any division); the `LineCount` strategy falls back to `split_by_source`. -/
def split_into_chunks (config : CompilerConfig) (options : ChunkingOptions) :
    Option (List (CompilerConfig × ChunkMetadata)) :=
  if config.sources.isEmpty then some []
  else
    match options.strategy with
    | .source => split_by_source config options
    | .lineCount => split_by_source config options

/-- Slicing a list into contiguous runs of `spc` elements, exactly the index
arithmetic of `split_by_source` (and of the batch loop of
`compile_chunks_async`). -/
def sliceChunks (l : List α) (spc : Nat) : List (List α) :=
  (List.range ((l.length + spc - 1) / spc)).map
    (fun i => (l.drop (i * spc)).take spc)

/-! ## Chunk execution (chunking.rs)

`compile_single_chunk_async` performs I/O: it writes the chunk config to a
temp file, resolves the compiler executable, runs it, and reads the output
file.  Each I/O step's outcome is supplied by a `ChunkEnv` record; the Lean
function reproduces the Rust control flow over those outcomes. -/

/-- The subset of `CompilerError` (error.rs) reachable from the chunk
pipeline, with the extra message carried by the `#[source]` io error. -/
inductive CompilerError where
  | CompilerNotFound
  | FileSystem (context : String) (source_msg : String)
  | ProcessExecution (command : String) (source_msg : String)
deriving DecidableEq

/-- The `Display` rendering of `CompilerError` (`#[error(...)]` attributes in
error.rs); `FileSystem` formats only its context. -/
def CompilerError.toMessage : CompilerError → String
  | .CompilerNotFound =>
    "hostlist-compiler not found (install with: npm install -g @adguard/hostlist-compiler)"
  | .FileSystem context _ => "file system error: " ++ context
  | .ProcessExecution command source_msg =>
    "failed to execute process '" ++ command ++ "': " ++ source_msg

/-- The fields of `std::process::Output` consumed by the code. -/
structure ProcessOutput where
  status_success : Bool
  exit_code : Option Int
  stderr : String
deriving DecidableEq

/-- Result of spawning the compiler process. -/
inductive RunOutcome where
  | spawnError (msg : String)
  | finished (output : ProcessOutput)
deriving DecidableEq

/-- The I/O environment of one chunk compilation: temp-file paths, the
`to_json`/`tokio::fs::write` outcome, `which` resolution for
`hostlist-compiler` and `npx`, the process result, and the output file's
existence and lines. -/
structure ChunkEnv where
  config_path : String
  output_path : String
  write_error : Option String
  which_hostlist : Option String
  which_npx : Option String
  run_result : RunOutcome
  output_file_exists : Bool
  read_error : Option String
  output_lines : List String
deriving DecidableEq

/-- `format!("{:?}", output.status.code())`. -/
def formatExitCode : Option Int → String
  | some c => "Some(" ++ toString c ++ ")"
  | none => "None"

/-- `get_compiler_command`: prefer a `hostlist-compiler` binary on the path,
fall back to `npx @adguard/hostlist-compiler`, otherwise `CompilerNotFound`. -/
def get_compiler_command (which_hostlist which_npx : Option String)
    (config_path output_path : String) : Except CompilerError (String × List String) :=
  match which_hostlist with
  | some compiler_path =>
    .ok (compiler_path, ["--config", config_path, "--output", output_path])
  | none =>
    match which_npx with
    | some npx_path =>
      .ok (npx_path,
        ["@adguard/hostlist-compiler", "--config", config_path, "--output", output_path])
    | none => .error .CompilerNotFound

/-- `compile_single_chunk_async`: write the config, resolve the compiler,
run it; a non-zero exit records the trimmed stderr into `error_message` and
returns `Ok` with `success = false`; a zero exit reads the output file when
it exists (an absent file yields no lines) and returns `Ok` with
`success = true`.  I/O failures and an unresolvable compiler return `Err`.
Elapsed wall-clock times are modelled as 0. -/
def compile_single_chunk_async (env : ChunkEnv) (_config : CompilerConfig)
    (metadata : ChunkMetadata) : Except CompilerError (List String × ChunkMetadata) :=
  match env.write_error with
  | some e => .error (.FileSystem ("writing chunk config to " ++ env.config_path) e)
  | none =>
    match get_compiler_command env.which_hostlist env.which_npx
        env.config_path env.output_path with
    | .error e => .error e
    | .ok (cmd, args) =>
      match env.run_result with
      | .spawnError e =>
        .error (.ProcessExecution (cmd ++ " " ++ String.intercalate " " args) e)
      | .finished output =>
        if output.status_success = false then
          .ok ([], { metadata with
            success := false
            elapsed_ms := some 0
            error_message := some ("Compilation failed with exit code "
              ++ formatExitCode output.exit_code ++ ": " ++ output.stderr.trim) })
        else
          match (if env.output_file_exists then
              match env.read_error with
              | some e =>
                Except.error (CompilerError.FileSystem
                  ("reading chunk output from " ++ env.output_path) e)
              | none => Except.ok env.output_lines
            else Except.ok ([] : List String)) with
          | .error e => .error e
          | .ok rules =>
            .ok (rules, { metadata with
              success := true
              elapsed_ms := some 0
              actual_rules := some rules.length
              output_path := some env.output_path })

/-- `ChunkedCompilationResult`. -/
structure ChunkedCompilationResult where
  success : Bool
  total_elapsed_ms : Nat
  chunks : List ChunkMetadata
  total_rules : Nat
  final_rule_count : Nat
  duplicates_removed : Nat
  merged_rules : Option (List String)
  errors : List String
deriving DecidableEq

/-- `ChunkedCompilationResult::default()`. -/
def ChunkedCompilationResult.default : ChunkedCompilationResult :=
  { success := false, total_elapsed_ms := 0, chunks := [], total_rules := 0,
    final_rule_count := 0, duplicates_removed := 0, merged_rules := none,
    errors := [] }

/-- The per-outcome body of the `for batch_result in batch_results` loop of
`compile_chunks_async`: a successful metadata pushes its rules onto the
accumulated chunk outputs, a failed metadata appends `"Chunk i+1: msg"` to
the errors, an `Err` from the task appends its rendered message; metadata is
recorded in `result.chunks` in both `Ok` cases. -/
def resultStep (st : List (List String) × ChunkedCompilationResult)
    (outcome : Except CompilerError (List String × ChunkMetadata)) :
    List (List String) × ChunkedCompilationResult :=
  match outcome with
  | .ok (rules, metadata) =>
    let crs := if metadata.success then st.1 ++ [rules] else st.1
    let errs :=
      if metadata.success = false then
        match metadata.error_message with
        | some error =>
          st.2.errors ++ ["Chunk " ++ toString (metadata.index + 1) ++ ": " ++ error]
        | none => st.2.errors
      else st.2.errors
    (crs, { st.2 with errors := errs, chunks := st.2.chunks ++ [metadata] })
  | .error e => (st.1, { st.2 with errors := st.2.errors ++ [e.toMessage] })

/-- The batch loop of `compile_chunks_async`: `step_by(max_parallel)` over
the chunk indices gives batch starts `0, p, 2p, ...` (`ceil(n/p)` batches);
each batch is the contiguous slice of `p` paired chunk/environment entries,
its members are compiled and their outcomes folded into the accumulated
state in order. -/
def runBatches (paired : List ((CompilerConfig × ChunkMetadata) × ChunkEnv))
    (n p : Nat) : List (List String) × ChunkedCompilationResult :=
  (List.range ((n + p - 1) / p)).foldl
    (fun st bi =>
      let batch := (paired.drop (bi * p)).take p
      let batch_results :=
        batch.map (fun ce => compile_single_chunk_async ce.2 ce.1.1 ce.1.2)
      batch_results.foldl resultStep st)
    ([], ChunkedCompilationResult.default)

/-- The tail of `compile_chunks_async`: merge the collected chunk outputs
when there are any, then set `total_rules` and `success`. -/
def finalizeResult (st : List (List String) × ChunkedCompilationResult) :
    ChunkedCompilationResult :=
  let result := st.2
  let result :=
    if st.1.isEmpty = false then
      let merged := merge_chunks st.1
      { result with
        final_rule_count := merged.1.length
        duplicates_removed := merged.2
        merged_rules := some merged.1 }
    else result
  { result with
    total_rules := (result.chunks.filterMap (fun c => c.actual_rules)).sum
    success := result.errors.isEmpty }

/-- `compile_chunks_async`: batches of `max_parallel` chunks are processed
in order (a zero step would make `Iterator::step_by` panic, modelled as
`none`); each chunk runs under its environment from `envs`; afterwards the
collected outputs are merged, `total_rules` sums the recorded
`actual_rules`, and `success` holds iff no error was recorded.  The function
itself always returns `Ok` (`some`) when the step is nonzero. -/
def compile_chunks_async (chunks : List (CompilerConfig × ChunkMetadata))
    (envs : List ChunkEnv) (options : ChunkingOptions) :
    Option ChunkedCompilationResult :=
  if options.max_parallel = 0 then none
  else
    some (finalizeResult
      (runBatches (chunks.zip envs) chunks.length options.max_parallel))

/-- The chunk outputs a single outcome contributes to the merge input. -/
def okRules : Except CompilerError (List String × ChunkMetadata) → Option (List String)
  | .ok (rules, metadata) => if metadata.success then some rules else none
  | .error _ => none

/-- The error-list entry a single outcome contributes. -/
def errEntry : Except CompilerError (List String × ChunkMetadata) → Option String
  | .ok (_, metadata) =>
    if metadata.success then none
    else
      match metadata.error_message with
      | some error => some ("Chunk " ++ toString (metadata.index + 1) ++ ": " ++ error)
      | none => none
  | .error e => some e.toMessage

/-- The `result.chunks` entry a single outcome contributes. -/
def okMeta : Except CompilerError (List String × ChunkMetadata) → Option ChunkMetadata
  | .ok (_, metadata) => some metadata
  | .error _ => none

/-- The outcome list of a run: chunk `i` compiled under environment `i`. -/
def chunkOutcomes (chunks : List (CompilerConfig × ChunkMetadata))
    (envs : List ChunkEnv) : List (Except CompilerError (List String × ChunkMetadata)) :=
  (chunks.zip envs).map (fun ce => compile_single_chunk_async ce.2 ce.1.1 ce.1.2)

/-- Closed form of the aggregate result of a run with the given outcomes:
merge inputs, error entries, and chunk metadata are the per-outcome
contributions in order. -/
def buildResult (outcomes : List (Except CompilerError (List String × ChunkMetadata))) :
    ChunkedCompilationResult :=
  finalizeResult (outcomes.filterMap okRules,
    { ChunkedCompilationResult.default with
      errors := outcomes.filterMap errEntry
      chunks := outcomes.filterMap okMeta })

/-! ## Event system (events.rs)

Handlers take `&mut args` and run synchronously, so each handler is a
function from the args value to the updated args value.  Only the four
stages that support a short-circuit flag are modelled with their full args
structs; timestamps and f64 durations are `Nat`. -/

/-- `ValidationSeverity`. -/
inductive ValidationSeverity where
  | info
  | warning
  | error
  | critical
deriving DecidableEq

/-- `ValidationFinding` (the context map is an association list). -/
structure ValidationFinding where
  severity : ValidationSeverity
  code : String
  message : String
  location : Option String
  context : Option (List (String × String))
deriving DecidableEq

/-- `CompilationStartedEventArgs`. -/
structure CompilationStartedEventArgs where
  timestamp : Nat
  config_path : Option String
  cancel : Bool
  cancel_reason : Option String
deriving DecidableEq

/-- `ValidationEventArgs`. -/
structure ValidationEventArgs where
  timestamp : Nat
  stage_name : String
  findings : List ValidationFinding
  duration_ms : Nat
  items_validated : Nat
  abort : Bool
  abort_reason : Option String
deriving DecidableEq

/-- `SourceLoadingEventArgs`. -/
structure SourceLoadingEventArgs where
  timestamp : Nat
  source_index : Nat
  total_sources : Nat
  source_url : String
  source_name : Option String
  is_local_file : Bool
  skip : Bool
  skip_reason : Option String
deriving DecidableEq

/-- `ChunkStartedEventArgs`. -/
structure ChunkStartedEventArgs where
  timestamp : Nat
  chunk_index : Nat
  total_chunks : Nat
  source_count : Nat
  estimated_rules : Nat
  skip : Bool
  skip_reason : Option String
deriving DecidableEq

/-- A `CompilationEventHandler` restricted to the four short-circuiting
stages (the remaining callbacks have no control flags and are irrelevant to
the dispatch-stop property). -/
structure CompilationEventHandler where
  on_compilation_starting : CompilationStartedEventArgs → CompilationStartedEventArgs
  on_validation : ValidationEventArgs → ValidationEventArgs
  on_source_loading : SourceLoadingEventArgs → SourceLoadingEventArgs
  on_chunk_started : ChunkStartedEventArgs → ChunkStartedEventArgs

/-- `EventDispatcher`: an ordered list of handlers. -/
structure EventDispatcher where
  handlers : List CompilationEventHandler

/-- The shared dispatch loop: call each handler in registration order; after
each call, if the stage's flag is set on the updated args, stop and return
immediately. -/
def dispatchLoop (call : CompilationEventHandler → α → α) (flag : α → Bool) :
    List CompilationEventHandler → α → α
  | [], args => args
  | h :: hs, args =>
    let args1 := call h args
    if flag args1 then args1 else dispatchLoop call flag hs args1

/-- `EventDispatcher::raise_validation`: stops on `abort`. -/
def EventDispatcher.raise_validation (d : EventDispatcher)
    (args : ValidationEventArgs) : ValidationEventArgs :=
  dispatchLoop (fun h a => h.on_validation a) (fun a => a.abort) d.handlers args

/-- `EventDispatcher::raise_compilation_starting`: stops on `cancel`. -/
def EventDispatcher.raise_compilation_starting (d : EventDispatcher)
    (args : CompilationStartedEventArgs) : CompilationStartedEventArgs :=
  dispatchLoop (fun h a => h.on_compilation_starting a) (fun a => a.cancel)
    d.handlers args

/-- `EventDispatcher::raise_source_loading`: stops on `skip`. -/
def EventDispatcher.raise_source_loading (d : EventDispatcher)
    (args : SourceLoadingEventArgs) : SourceLoadingEventArgs :=
  dispatchLoop (fun h a => h.on_source_loading a) (fun a => a.skip) d.handlers args

/-- `EventDispatcher::raise_chunk_started`: stops on `skip`. -/
def EventDispatcher.raise_chunk_started (d : EventDispatcher)
    (args : ChunkStartedEventArgs) : ChunkStartedEventArgs :=
  dispatchLoop (fun h a => h.on_chunk_started a) (fun a => a.skip) d.handlers args

/-- Running a handler prefix to completion (no early exit). -/
def runAll (call : CompilationEventHandler → α → α)
    (hs : List CompilationEventHandler) (args : α) : α :=
  hs.foldl (fun a h => call h a) args

/-- The flag stays false throughout a run of the given handlers: the
condition under which the dispatch loop reaches the handlers after them. -/
def NoStop (call : CompilationEventHandler → α → α) (flag : α → Bool) :
    List CompilationEventHandler → α → Prop
  | [], _ => True
  | h :: hs, args => flag (call h args) = false ∧ NoStop call flag hs (call h args)

/-! ## File lock service (events.rs) -/

/-- `FileLockType`. -/
inductive FileLockType where
  | read
  | write
deriving DecidableEq

/-- `FileLockHandle`: paths are strings, the `Instant` is a `Nat`, and the
open `File` (kept only to hold the OS lock) is `Option Unit`. -/
structure FileLockHandle where
  lock_id : String
  file_path : String
  lock_type : FileLockType
  acquired_at : Nat
  content_hash : Option String
  file : Option Unit
  is_active : Bool
deriving DecidableEq

/-- `FileLockHandle::release`: drops the file handle and clears `is_active`,
only when the lock is still active; otherwise does nothing. -/
def FileLockHandle.release (h : FileLockHandle) : FileLockHandle :=
  if h.is_active then { h with file := none, is_active := false } else h

/-- `impl Drop for FileLockHandle`: dropping invokes `release`. -/
def FileLockHandle.dropHandle (h : FileLockHandle) : FileLockHandle :=
  h.release

/-- `FileLockService`: the mutex-guarded `active_locks` map, as an
association list from lock id to canonical path. -/
structure FileLockService where
  active_locks : List (String × String)
deriving DecidableEq

/-- `FileLockService::new`. -/
def FileLockService.new : FileLockService := { active_locks := [] }

/-- `HashMap::insert` on the association-list model: replace the value under
an existing key, otherwise append the new entry. -/
def insertAL (key val : String) (l : List (String × String)) :
    List (String × String) :=
  if l.any (fun p => p.1 = key) then
    l.map (fun p => if p.1 = key then (key, val) else p)
  else l ++ [(key, val)]

/-- The I/O environment of one `acquire_lock` call: the canonicalized path
(`none` = canonicalize failed), whether `File::open` and the non-blocking
`flock` succeed, the fresh UUID lock id, and the hash-computation result. -/
structure AcquireEnv where
  canonical_path : Option String
  open_ok : Bool
  flock_ok : Bool
  lock_id : String
  hash_result : Option String
deriving DecidableEq

/-- `FileLockService::acquire_lock`: canonicalize, open, flock; compute the
hash when requested (a failure propagates); insert `(lock_id, path)` into
`active_locks`; return the updated service state and an active handle. -/
def FileLockService.acquire_lock (svc : FileLockService) (env : AcquireEnv)
    (lock_type : FileLockType) (compute_hash : Bool) :
    Option (FileLockService × FileLockHandle) :=
  match env.canonical_path with
  | none => none
  | some full_path =>
    if env.open_ok = false then none
    else if env.flock_ok = false then none
    else if compute_hash ∧ env.hash_result = none then none
    else
      let content_hash := if compute_hash then env.hash_result else none
      some ({ active_locks := insertAL env.lock_id full_path svc.active_locks },
        { lock_id := env.lock_id, file_path := full_path, lock_type := lock_type,
          acquired_at := 0, content_hash := content_hash, file := some (),
          is_active := true })

/-- `FileLockService::active_lock_count`. -/
def FileLockService.active_lock_count (svc : FileLockService) : Nat :=
  svc.active_locks.length

/-- `FileLockService::release_all_locks`: clears the map. -/
def FileLockService.release_all_locks (_svc : FileLockService) : FileLockService :=
  { active_locks := [] }

/-- The operations that can touch a `FileLockService`'s state.
`FileLockHandle::release` (and the drop that calls it) takes only
`&mut self` on the handle — it cannot reach the service — so its effect on
the lock table is the identity, while the handle itself is released. -/
inductive LockOp where
  | acquire (env : AcquireEnv) (lock_type : FileLockType) (compute_hash : Bool)
  | releaseHandle (h : FileLockHandle)
  | dropOfHandle (h : FileLockHandle)
  | releaseAll

/-- Effect of an operation on the service's lock table. -/
def LockOp.apply (svc : FileLockService) : LockOp → FileLockService
  | .acquire env lock_type compute_hash =>
    match svc.acquire_lock env lock_type compute_hash with
    | some (svc1, _) => svc1
    | none => svc
  | .releaseHandle h => let _ := h.release; svc
  | .dropOfHandle h => let _ := h.dropHandle; svc
  | .releaseAll => svc.release_all_locks

/-! ## Concrete inputs used by witnesses -/

/-- Sample source A. -/
def wSourceA : FilterSource := FilterSource.new "A" "https://example.com/a.txt"

/-- Sample source B. -/
def wSourceB : FilterSource := FilterSource.new "B" "https://example.com/b.txt"

/-- Sample source C. -/
def wSourceC : FilterSource := FilterSource.new "C" "https://example.com/c.txt"

/-- A configuration with no sources. -/
def wConfig0 : CompilerConfig := CompilerConfig.new "Test"

/-- A configuration with one source. -/
def wConfig1 : CompilerConfig := (CompilerConfig.new "Test").with_source wSourceA

/-- A configuration with three sources. -/
def wConfig3 : CompilerConfig :=
  (((CompilerConfig.new "Test").with_source wSourceA).with_source wSourceB).with_source
    wSourceC

/-- Chunking options with the given parallelism, `Source` strategy. -/
def wOptions (p : Nat) : ChunkingOptions :=
  { enabled := true, chunk_size := 100000, max_parallel := p, strategy := .source }

/-- Metadata for chunk `i` of `total`. -/
def wMeta (i total : Nat) : ChunkMetadata :=
  { ChunkMetadata.default with index := i, total := total }

/-- An environment whose compiler run succeeds with two output lines. -/
def wEnvOk : ChunkEnv :=
  { config_path := "/tmp/chunk-config-1.json", output_path := "/tmp/chunk-output-1.txt",
    write_error := none, which_hostlist := some "/usr/bin/hostlist-compiler",
    which_npx := none,
    run_result := .finished { status_success := true, exit_code := some 0, stderr := "" },
    output_file_exists := true, read_error := none, output_lines := ["a", "b"] }

/-- An environment whose compiler run exits non-zero with stderr "boom". -/
def wEnvFail : ChunkEnv :=
  { wEnvOk with
    run_result := .finished
      { status_success := false, exit_code := some 1, stderr := "boom" } }

/-- An environment in which neither `hostlist-compiler` nor `npx` resolves. -/
def wEnvNotFound : ChunkEnv :=
  { wEnvOk with which_hostlist := none, which_npx := none }

/-- An environment whose compiler run exits 0 but whose output file is
missing. -/
def wEnvNoOutput : ChunkEnv :=
  { wEnvOk with output_file_exists := false, output_lines := [] }

/-- A handler that requests the short-circuit flag at every stage. -/
def wHandlerStop : CompilationEventHandler :=
  { on_compilation_starting := fun a => { a with cancel := true }
    on_validation := fun a => { a with abort := true }
    on_source_loading := fun a => { a with skip := true }
    on_chunk_started := fun a => { a with skip := true } }

/-- A handler that only counts, never setting any flag. -/
def wHandlerCount : CompilationEventHandler :=
  { on_compilation_starting := fun a => { a with timestamp := a.timestamp + 1 }
    on_validation := fun a => { a with items_validated := a.items_validated + 1 }
    on_source_loading := fun a => { a with timestamp := a.timestamp + 1 }
    on_chunk_started := fun a => { a with timestamp := a.timestamp + 1 } }

/-- Fresh validation args. -/
def wValArgs : ValidationEventArgs :=
  { timestamp := 0, stage_name := "configuration", findings := [], duration_ms := 0,
    items_validated := 0, abort := false, abort_reason := none }

/-- Fresh compilation-starting args. -/
def wStartArgs : CompilationStartedEventArgs :=
  { timestamp := 0, config_path := none, cancel := false, cancel_reason := none }

/-- Fresh source-loading args. -/
def wLoadArgs : SourceLoadingEventArgs :=
  { timestamp := 0, source_index := 0, total_sources := 1,
    source_url := "https://example.com/a.txt", source_name := none,
    is_local_file := false, skip := false, skip_reason := none }

/-- Fresh chunk-started args. -/
def wChunkArgs : ChunkStartedEventArgs :=
  { timestamp := 0, chunk_index := 0, total_chunks := 1, source_count := 1,
    estimated_rules := 0, skip := false, skip_reason := none }

/-- A fully successful lock-acquisition environment. -/
def wAcquireEnv : AcquireEnv :=
  { canonical_path := some "/tmp/list.txt", open_ok := true, flock_ok := true,
    lock_id := "lock-1", hash_result := some "abc123" }

/-- A service already holding one lock. -/
def wService1 : FileLockService :=
  { active_locks := [("lock-0", "/tmp/other.txt")] }

/-! ## Merge lemmas -/

theorem mergeLoop_eq_keepSpec (l : List String) :
    ∀ (seen pre : List String),
      (∀ s, isStructural s = false → (s ∈ seen ↔ s ∈ pre)) →
      mergeLoop seen l = keepSpec pre l := by
  induction l with
  | nil => intro seen pre _; rfl
  | cons r rs ih =>
    intro seen pre hsp
    by_cases hs : isStructural r
    · rw [mergeLoop, keepSpec, if_pos hs, if_pos (Or.inl hs)]
      refine congrArg (r :: ·) (ih seen (pre ++ [r]) ?_)
      intro s hns
      have hne : s ≠ r := fun h => by rw [h] at hns; rw [hns] at hs; exact Bool.noConfusion hs
      rw [hsp s hns]
      simp [List.mem_append, hne]
    · have hs' : isStructural r = false := by
        cases h : isStructural r with
        | false => rfl
        | true => exact absurd h hs
      by_cases hmem : r ∈ seen
      · have hpre : r ∈ pre := (hsp r hs').mp hmem
        rw [mergeLoop, if_neg hs, if_pos hmem, keepSpec,
          if_neg (by simp [hs', hpre])]
        refine ih seen (pre ++ [r]) ?_
        intro s hns
        rw [hsp s hns]
        constructor
        · intro h; exact List.mem_append_left _ h
        · intro h
          rcases List.mem_append.mp h with h | h
          · exact h
          · rw [List.mem_singleton.mp h]; exact hpre
      · have hpre : r ∉ pre := fun h => hmem ((hsp r hs').mpr h)
        rw [mergeLoop, if_neg hs, if_neg hmem, keepSpec, if_pos (Or.inr hpre)]
        refine congrArg (r :: ·) (ih (r :: seen) (pre ++ [r]) ?_)
        intro s hns
        rw [List.mem_cons, hsp s hns]
        simp [List.mem_append, List.mem_singleton, or_comm]

theorem mergeLoop_length_le (l : List String) :
    ∀ seen, (mergeLoop seen l).length ≤ l.length := by
  induction l with
  | nil => intro seen; exact Nat.le_refl 0
  | cons r rs ih =>
    intro seen
    rw [mergeLoop]
    split
    · simpa using Nat.succ_le_succ (ih seen)
    · split
      · exact Nat.le_succ_of_le (ih seen)
      · simpa using Nat.succ_le_succ (ih (r :: seen))

/-- (C1) `merge_chunks` scans the concatenation of the chunks in chunk order;
structural lines (empty after trimming, or starting with `!` or `#` after
trimming) are kept at every occurrence, every other line is kept exactly at
its first occurrence with membership keyed on the raw line (this is the
`keepSpec` characterisation), and `duplicates_removed` is the total number of
input lines across all chunks minus the length of the merged list. -/
theorem merge_chunks_spec (chunk_results : List (List String)) :
    (merge_chunks chunk_results).1 = keepSpec [] chunk_results.flatten ∧
    (merge_chunks chunk_results).2 =
      (chunk_results.map List.length).sum - (merge_chunks chunk_results).1.length ∧
    (merge_chunks chunk_results).2 =
      chunk_results.flatten.length - (merge_chunks chunk_results).1.length := by
  refine ⟨?_, rfl, ?_⟩
  · exact mergeLoop_eq_keepSpec _ [] [] (by intro s _; rfl)
  · show (chunk_results.map List.length).sum - _ = chunk_results.flatten.length - _
    rw [← List.length_flatten]
    rfl

/-! ## Slicing lemmas -/

theorem ceil_div_of_pos (n k : Nat) (hn : 1 ≤ n) (hk : 1 ≤ k) :
    (n + k - 1) / k = (n - 1) / k + 1 := by
  have h : n + k - 1 = (n - 1) + k := by omega
  rw [h, Nat.add_div_right _ hk]

theorem sliceChunks_nil (spc : Nat) : sliceChunks ([] : List α) spc = [] := by
  unfold sliceChunks
  have h0 : (([] : List α).length + spc - 1) / spc = 0 := by
    rcases Nat.eq_zero_or_pos spc with h | h
    · rw [h]; simp
    · exact Nat.div_eq_of_lt (by simp; omega)
  rw [h0]
  rfl

theorem sliceChunks_cons (spc : Nat) (hspc : 1 ≤ spc) (l : List α) (hl : l ≠ []) :
    sliceChunks l spc = l.take spc :: sliceChunks (l.drop spc) spc := by
  have hn : 1 ≤ l.length := List.length_pos.mpr hl
  have htot : (l.length + spc - 1) / spc = (l.length - 1) / spc + 1 :=
    ceil_div_of_pos _ _ hn hspc
  have htot' : ((l.drop spc).length + spc - 1) / spc = (l.length - 1) / spc := by
    rw [List.length_drop]
    rcases le_or_lt spc l.length with h | h
    · have he : l.length - spc + spc - 1 = l.length - 1 := by omega
      rw [he]
    · have h1 : l.length - spc = 0 := by omega
      rw [h1, Nat.div_eq_of_lt (by omega), Nat.div_eq_of_lt (by omega)]
  unfold sliceChunks
  rw [htot, htot', List.range_succ_eq_map, List.map_cons, List.map_map]
  congr 1
  · simp
  · refine List.map_congr_left ?_
    intro i _
    show (l.drop (Nat.succ i * spc)).take spc = ((l.drop spc).drop (i * spc)).take spc
    rw [List.drop_drop]
    have hsm : Nat.succ i * spc = i * spc + spc := Nat.succ_mul i spc
    rw [hsm, Nat.add_comm]

theorem sliceChunks_flatten (spc : Nat) (hspc : 1 ≤ spc) (l : List α) :
    (sliceChunks l spc).flatten = l := by
  suffices h : ∀ (fuel : Nat) (l : List α), l.length ≤ fuel →
      (sliceChunks l spc).flatten = l from h l.length l (Nat.le_refl _)
  intro fuel
  induction fuel with
  | zero =>
    intro l hl
    have he : l = [] := List.eq_nil_of_length_eq_zero (Nat.le_zero.mp hl)
    rw [he, sliceChunks_nil]
    rfl
  | succ fuel ih =>
    intro l hl
    by_cases hne : l = []
    · rw [hne, sliceChunks_nil]; rfl
    · have hn : 1 ≤ l.length := List.length_pos.mpr hne
      rw [sliceChunks_cons spc hspc l hne, List.flatten_cons,
        ih (l.drop spc) (by rw [List.length_drop]; omega),
        List.take_append_drop]

/-! ## Claim C6: should_enable_chunking -/

/-- (C6) `should_enable_chunking` returns `false` whenever the job has no
sources, regardless of options; when options are provided it returns their
`enabled` value; with no options (default `Source` strategy) it returns
`true` iff the job has more than one source. -/
theorem should_enable_chunking_spec :
    (∀ (config : CompilerConfig) (options : Option ChunkingOptions),
      config.sources = [] → should_enable_chunking config options = false) ∧
    (∀ (config : CompilerConfig) (opts : ChunkingOptions),
      config.sources ≠ [] →
      should_enable_chunking config (some opts) = opts.enabled) ∧
    (∀ config : CompilerConfig,
      should_enable_chunking config none = decide (1 < config.sources.length)) := by
  refine ⟨?_, ?_, ?_⟩
  · intro config options h
    simp [should_enable_chunking, h]
  · intro config opts h
    cases hs : config.sources with
    | nil => exact absurd hs h
    | cons a t =>
      simp only [should_enable_chunking, hs, List.isEmpty_cons, Bool.false_eq_true,
        if_false]
      cases he : opts.enabled <;> simp [he]
  · intro config
    cases hs : config.sources with
    | nil => simp [should_enable_chunking, hs]
    | cons a t =>
      simp only [should_enable_chunking, hs, List.isEmpty_cons, Bool.false_eq_true,
        if_false]
      by_cases h : 1 < (a :: t).length <;> simp [h]

/-- Witness for C6 at concrete inputs: an empty job, a multi-source job with
explicitly disabled options, and a single-source job with no options. -/
theorem should_enable_chunking_spec_witness :
    wConfig0.sources = [] ∧
    should_enable_chunking wConfig0 (some (wOptions 4)) = false ∧
    wConfig3.sources ≠ [] ∧
    should_enable_chunking wConfig3 (some ((wOptions 4).with_enabled false)) =
      ((wOptions 4).with_enabled false).enabled ∧
    should_enable_chunking wConfig1 none = decide (1 < wConfig1.sources.length) := by
  refine ⟨rfl, ?_, ?_, ?_, ?_⟩
  · exact should_enable_chunking_spec.1 wConfig0 (some (wOptions 4)) rfl
  · decide
  · exact should_enable_chunking_spec.2.1 wConfig3 _ (by decide)
  · exact should_enable_chunking_spec.2.2 wConfig1

/-! ## Claim C2: split_into_chunks under the Source strategy -/

/-- (C2) For a job with at least one source and `max_parallel ≥ 1`, under the
`Source` strategy `split_into_chunks` produces `ceil(n / ceil(n/p))` chunks;
chunk `i` holds the contiguous slice of sources starting at `i * ceil(n/p)`;
concatenating the chunks' source lists in chunk order yields the original
sources; every chunk has `ceil(n/p)` sources except possibly the last, which
has the nonzero remainder. -/
theorem split_into_chunks_source_spec (config : CompilerConfig)
    (options : ChunkingOptions) (hn : config.sources ≠ [])
    (hp : 1 ≤ options.max_parallel) (hstrat : options.strategy = .source) :
    ∃ chunks, split_into_chunks config options = some chunks ∧
      sourcesPerChunk config options =
        (config.sources.length + options.max_parallel - 1) / options.max_parallel ∧
      chunks.length =
        (config.sources.length + sourcesPerChunk config options - 1)
          / sourcesPerChunk config options ∧
      (∀ i, (h : i < chunks.length) →
        chunks[i].1.sources =
          (config.sources.drop (i * sourcesPerChunk config options)).take
            (sourcesPerChunk config options) ∧
        chunks[i].2.sources = chunks[i].1.sources ∧
        chunks[i].2.index = i ∧ chunks[i].2.total = chunks.length) ∧
      (chunks.map (fun c => c.2.sources)).flatten = config.sources ∧
      (∀ i, (h : i + 1 < chunks.length) →
        chunks[i].2.sources.length = sourcesPerChunk config options) ∧
      0 < chunks.length ∧
      (∀ i, (h : i < chunks.length) → i + 1 = chunks.length →
        chunks[i].2.sources.length =
          config.sources.length - i * sourcesPerChunk config options ∧
        0 < config.sources.length - i * sourcesPerChunk config options ∧
        config.sources.length - i * sourcesPerChunk config options
          ≤ sourcesPerChunk config options) := by
  have hn1 : 1 ≤ config.sources.length := List.length_pos.mpr hn
  have hie : config.sources.isEmpty = false := by
    cases h : config.sources with
    | nil => exact absurd h hn
    | cons a t => rfl
  have hp0 : ¬ options.max_parallel = 0 := by omega
  have hspc0 :
      1 ≤ (config.sources.length + options.max_parallel - 1) / options.max_parallel := by
    rw [Nat.le_div_iff_mul_le (by omega : 0 < options.max_parallel)]
    omega
  have hspc_eq : sourcesPerChunk config options
      = (config.sources.length + options.max_parallel - 1) / options.max_parallel :=
    Nat.max_eq_right hspc0
  have hspc1 : 1 ≤ sourcesPerChunk config options := Nat.le_max_left 1 _
  have htot : totalChunksOf config options
      = (config.sources.length - 1) / sourcesPerChunk config options + 1 :=
    ceil_div_of_pos _ _ hn1 hspc1
  refine ⟨(List.range (totalChunksOf config options)).map
      (chunkAt config (sourcesPerChunk config options) (totalChunksOf config options)),
      ?_, hspc_eq, ?_, ?_, ?_, ?_, ?_, ?_⟩
  · simp only [split_into_chunks, hie, Bool.false_eq_true, if_false, hstrat,
      split_by_source, if_neg hp0]
  · simp only [List.length_map, List.length_range]
    rfl
  · intro i h
    have hi : i < totalChunksOf config options := by
      simpa using h
    simp only [List.getElem_map, List.getElem_range, chunkAt, List.length_map,
      List.length_range]
    exact ⟨trivial, trivial, trivial, trivial⟩
  · have hmm : ((List.range (totalChunksOf config options)).map
        (chunkAt config (sourcesPerChunk config options)
          (totalChunksOf config options))).map (fun c => c.2.sources)
        = sliceChunks config.sources (sourcesPerChunk config options) := by
      unfold sliceChunks
      rw [List.map_map]
      exact List.map_congr_left (fun i _ => rfl)
    rw [hmm]
    exact sliceChunks_flatten _ hspc1 config.sources
  · intro i h
    have hi : i + 1 < totalChunksOf config options := by
      simpa using h
    have hile : i + 1 ≤ (config.sources.length - 1) / sourcesPerChunk config options := by
      omega
    have hmul : (i + 1) * sourcesPerChunk config options ≤ config.sources.length - 1 :=
      (Nat.le_div_iff_mul_le (by omega : 0 < sourcesPerChunk config options)).mp hile
    have hexp : (i + 1) * sourcesPerChunk config options
        = i * sourcesPerChunk config options + sourcesPerChunk config options :=
      Nat.succ_mul i _
    simp only [List.getElem_map, List.getElem_range, chunkAt, List.length_take,
      List.length_drop]
    omega
  · simp only [List.length_map, List.length_range]
    rw [htot]
    exact Nat.succ_pos _
  · intro i h hi1
    simp only [List.length_map, List.length_range] at hi1
    have hiq : i = (config.sources.length - 1) / sourcesPerChunk config options := by
      omega
    subst hiq
    have hq := Nat.div_add_mod (config.sources.length - 1) (sourcesPerChunk config options)
    have hmod : (config.sources.length - 1) % sourcesPerChunk config options
        < sourcesPerChunk config options := Nat.mod_lt _ (by omega)
    have hcomm : ((config.sources.length - 1) / sourcesPerChunk config options)
          * sourcesPerChunk config options
        = sourcesPerChunk config options
          * ((config.sources.length - 1) / sourcesPerChunk config options) :=
      Nat.mul_comm _ _
    simp only [List.getElem_map, List.getElem_range, chunkAt, List.length_take,
      List.length_drop]
    omega

/-- Witness for C2: a three-source job split with `max_parallel = 2` gives two
chunks (of sizes 2 and 1) whose concatenation is the original source list. -/
theorem split_into_chunks_source_spec_witness :
    wConfig3.sources ≠ [] ∧ 1 ≤ (wOptions 2).max_parallel ∧
    (wOptions 2).strategy = ChunkingStrategy.source ∧
    ∃ chunks, split_into_chunks wConfig3 (wOptions 2) = some chunks ∧
      chunks.length = 2 ∧
      (chunks.map (fun c => c.2.sources)).flatten = wConfig3.sources := by
  refine ⟨by decide, by decide, rfl, ?_⟩
  obtain ⟨chunks, h1, h2, h3, _, h5, _, _, _⟩ :=
    split_into_chunks_source_spec wConfig3 (wOptions 2) (by decide) (by decide) rfl
  refine ⟨chunks, h1, ?_, h5⟩
  rw [h3]
  decide

/-! ## Batch-loop lemmas -/

theorem isEmpty_false_of_ne_nil (l : List α) (h : l ≠ []) : l.isEmpty = false := by
  cases hs : l with
  | nil => exact absurd hs h
  | cons a t => rfl

theorem foldl_batches (p : Nat) (hp : 1 ≤ p) (g : β → α → β) (l : List α) (init : β) :
    (List.range ((l.length + p - 1) / p)).foldl
      (fun st bi => ((l.drop (bi * p)).take p).foldl g st) init
    = l.foldl g init := by
  conv_rhs => rw [← sliceChunks_flatten p hp l]
  rw [List.foldl_flatten]
  unfold sliceChunks
  rw [List.foldl_map]

theorem foldl_resultStep
    (outcomes : List (Except CompilerError (List String × ChunkMetadata))) :
    ∀ st : List (List String) × ChunkedCompilationResult,
      outcomes.foldl resultStep st =
        (st.1 ++ outcomes.filterMap okRules,
         { st.2 with
           errors := st.2.errors ++ outcomes.filterMap errEntry
           chunks := st.2.chunks ++ outcomes.filterMap okMeta }) := by
  induction outcomes with
  | nil => intro st; simp
  | cons o os ih =>
    intro st
    rw [List.foldl_cons, ih (resultStep st o)]
    cases o with
    | ok pr =>
      obtain ⟨rules, md⟩ := pr
      by_cases hs : md.success = true
      · simp [resultStep, okRules, errEntry, okMeta, hs]
      · have hs' : md.success = false := by simpa using hs
        cases hmsg : md.error_message with
        | some e => simp [resultStep, okRules, errEntry, okMeta, hs', hmsg]
        | none => simp [resultStep, okRules, errEntry, okMeta, hs', hmsg]
    | error e => simp [resultStep, okRules, errEntry, okMeta]

theorem compile_chunks_async_eq (chunks : List (CompilerConfig × ChunkMetadata))
    (envs : List ChunkEnv) (options : ChunkingOptions)
    (hp : 1 ≤ options.max_parallel) (hlen : envs.length = chunks.length) :
    compile_chunks_async chunks envs options
      = some (buildResult (chunkOutcomes chunks envs)) := by
  have hp0 : ¬ options.max_parallel = 0 := by omega
  have hpl : (chunks.zip envs).length = chunks.length := by
    rw [List.length_zip, hlen, Nat.min_self]
  have hco : (chunkOutcomes chunks envs).foldl resultStep
        ([], ChunkedCompilationResult.default)
      = (chunks.zip envs).foldl
          (fun st ce => resultStep st (compile_single_chunk_async ce.2 ce.1.1 ce.1.2))
          ([], ChunkedCompilationResult.default) := by
    unfold chunkOutcomes
    rw [List.foldl_map]
  unfold compile_chunks_async
  rw [if_neg hp0]
  unfold buildResult
  congr 1
  unfold runBatches
  rw [← hpl]
  simp only [List.foldl_map]
  rw [foldl_batches options.max_parallel hp
      (fun st ce => resultStep st (compile_single_chunk_async ce.2 ce.1.1 ce.1.2))
      (chunks.zip envs) ([], ChunkedCompilationResult.default),
    ← hco, foldl_resultStep]
  simp [ChunkedCompilationResult.default]

theorem buildResult_errors
    (outcomes : List (Except CompilerError (List String × ChunkMetadata))) :
    (buildResult outcomes).errors = outcomes.filterMap errEntry := by
  unfold buildResult finalizeResult
  dsimp only
  split <;> rfl

theorem buildResult_chunks
    (outcomes : List (Except CompilerError (List String × ChunkMetadata))) :
    (buildResult outcomes).chunks = outcomes.filterMap okMeta := by
  unfold buildResult finalizeResult
  dsimp only
  split <;> rfl

theorem buildResult_success
    (outcomes : List (Except CompilerError (List String × ChunkMetadata))) :
    (buildResult outcomes).success = (outcomes.filterMap errEntry).isEmpty := by
  unfold buildResult finalizeResult
  dsimp only
  split <;> rfl

/-! ## Claim C3: per-chunk failure isolation in compile_chunks_async -/

/-- (C3) After all batches, the aggregate result's `success` is true iff its
`errors` list is empty; a chunk whose compiler process exits non-zero gets
its trimmed stderr recorded into that chunk's `error_message` and the
formatted entry appended to `result.errors`, the operation still returns
`Ok` (`some`), and every chunk's metadata — including chunks processed after
a failing one — appears in `result.chunks`. -/
theorem compile_chunks_async_error_isolation
    (chunks : List (CompilerConfig × ChunkMetadata)) (envs : List ChunkEnv)
    (options : ChunkingOptions) (hp : 1 ≤ options.max_parallel)
    (hlen : envs.length = chunks.length) :
    ∃ res, compile_chunks_async chunks envs options = some res ∧
      (res.success = true ↔ res.errors = []) ∧
      res.errors = (chunkOutcomes chunks envs).filterMap errEntry ∧
      res.chunks = (chunkOutcomes chunks envs).filterMap okMeta ∧
      (∀ ce ∈ chunks.zip envs, ∀ output : ProcessOutput,
        ce.2.write_error = none →
        (ce.2.which_hostlist.isSome = true ∨ ce.2.which_npx.isSome = true) →
        ce.2.run_result = .finished output →
        output.status_success = false →
        ∃ md, compile_single_chunk_async ce.2 ce.1.1 ce.1.2 = .ok ([], md) ∧
          md.success = false ∧
          md.error_message = some ("Compilation failed with exit code "
            ++ formatExitCode output.exit_code ++ ": " ++ output.stderr.trim) ∧
          md ∈ res.chunks ∧
          ∀ msg, md.error_message = some msg →
            ("Chunk " ++ toString (md.index + 1) ++ ": " ++ msg) ∈ res.errors) ∧
      (∀ ce ∈ chunks.zip envs, ∀ rules md,
        compile_single_chunk_async ce.2 ce.1.1 ce.1.2 = .ok (rules, md) →
        md ∈ res.chunks) := by
  refine ⟨buildResult (chunkOutcomes chunks envs),
    compile_chunks_async_eq chunks envs options hp hlen, ?_,
    buildResult_errors _, buildResult_chunks _, ?_, ?_⟩
  · rw [buildResult_success, buildResult_errors]
    exact List.isEmpty_iff
  · intro ce hce output hw hcmd hrun hsf
    have hsingle : compile_single_chunk_async ce.2 ce.1.1 ce.1.2
        = .ok ([], { ce.1.2 with
            success := false
            elapsed_ms := some 0
            error_message := some ("Compilation failed with exit code "
              ++ formatExitCode output.exit_code ++ ": " ++ output.stderr.trim) }) := by
      rcases hwh : ce.2.which_hostlist with _ | cp
      · rcases hwn : ce.2.which_npx with _ | np
        · rw [hwh, hwn] at hcmd
          simp at hcmd
        · simp [compile_single_chunk_async, hw, get_compiler_command, hwh, hwn,
            hrun, hsf]
      · simp [compile_single_chunk_async, hw, get_compiler_command, hwh, hrun, hsf]
    have hmem : compile_single_chunk_async ce.2 ce.1.1 ce.1.2
        ∈ chunkOutcomes chunks envs := List.mem_map_of_mem _ hce
    rw [hsingle] at hmem
    refine ⟨_, hsingle, rfl, rfl, ?_, ?_⟩
    · rw [buildResult_chunks]
      exact List.mem_filterMap.mpr ⟨_, hmem, rfl⟩
    · intro msg hmsg
      rw [buildResult_errors]
      refine List.mem_filterMap.mpr ⟨_, hmem, ?_⟩
      simp only [errEntry]
      rw [Option.some.injEq] at hmsg
      simp [hmsg]
  · intro ce hce rules md hok
    rw [buildResult_chunks]
    have hmem : compile_single_chunk_async ce.2 ce.1.1 ce.1.2
        ∈ chunkOutcomes chunks envs := List.mem_map_of_mem _ hce
    rw [hok] at hmem
    exact List.mem_filterMap.mpr ⟨_, hmem, rfl⟩

/-- Witness for C3: two single-chunk batches, the first chunk failing with
stderr "boom", the second succeeding; the theorem applies and the run
returns an aggregate result. -/
theorem compile_chunks_async_error_isolation_witness :
    1 ≤ (wOptions 1).max_parallel ∧
    ([wEnvFail, wEnvOk] : List ChunkEnv).length
      = ([(wConfig1, wMeta 0 2), (wConfig1, wMeta 1 2)]
          : List (CompilerConfig × ChunkMetadata)).length ∧
    ∃ res, compile_chunks_async [(wConfig1, wMeta 0 2), (wConfig1, wMeta 1 2)]
        [wEnvFail, wEnvOk] (wOptions 1) = some res ∧
      (res.success = true ↔ res.errors = []) := by
  refine ⟨by decide, rfl, ?_⟩
  obtain ⟨res, h1, h2, _⟩ :=
    compile_chunks_async_error_isolation
      [(wConfig1, wMeta 0 2), (wConfig1, wMeta 1 2)] [wEnvFail, wEnvOk]
      (wOptions 1) (by decide) rfl
  exact ⟨res, h1, h2⟩

/-! ## Claim C4: CompilerNotFound propagation -/

/-- Counterexample for C4 as stated: with neither `hostlist-compiler` nor
`npx` resolvable, the chunk task does produce a `CompilerNotFound` error,
but `compile_chunks_async` still returns `Ok` (`some`) and the error message
is accumulated into the aggregate result's `errors` — it is not returned to
the caller. -/
theorem compiler_not_found_propagation_cex :
    get_compiler_command none none "/tmp/chunk-config-1.json"
        "/tmp/chunk-output-1.txt" = .error .CompilerNotFound ∧
    compile_single_chunk_async wEnvNotFound wConfig1 (wMeta 0 1)
      = .error .CompilerNotFound ∧
    (compile_chunks_async [(wConfig1, wMeta 0 1)] [wEnvNotFound]
        (wOptions 1)).isSome = true ∧
    (compile_chunks_async [(wConfig1, wMeta 0 1)] [wEnvNotFound] (wOptions 1)).map
        (fun r => (r.success, r.errors))
      = some (false, [CompilerError.CompilerNotFound.toMessage]) :=
  ⟨rfl, rfl, rfl, rfl⟩

/-- (C4 amended) When neither the primary compiler binary nor the
package-manager proxy can be resolved, `compile_single_chunk_async` returns
a `CompilerNotFound` error for that chunk; `compile_chunks_async` catches it
and appends its rendered message to the aggregate result's `errors` (making
`success = false`) while itself returning `Ok` — the error is accumulated
like a per-chunk failure, not returned immediately to the caller. -/
theorem compiler_not_found_accumulated
    (chunks : List (CompilerConfig × ChunkMetadata)) (envs : List ChunkEnv)
    (options : ChunkingOptions) (hp : 1 ≤ options.max_parallel)
    (hlen : envs.length = chunks.length)
    (ce : (CompilerConfig × ChunkMetadata) × ChunkEnv)
    (hce : ce ∈ chunks.zip envs) (hw : ce.2.write_error = none)
    (hh : ce.2.which_hostlist = none) (hn : ce.2.which_npx = none) :
    compile_single_chunk_async ce.2 ce.1.1 ce.1.2 = .error .CompilerNotFound ∧
    ∃ res, compile_chunks_async chunks envs options = some res ∧
      CompilerError.CompilerNotFound.toMessage ∈ res.errors ∧
      res.success = false := by
  have hsingle : compile_single_chunk_async ce.2 ce.1.1 ce.1.2
      = .error .CompilerNotFound := by
    simp [compile_single_chunk_async, hw, get_compiler_command, hh, hn]
  have hmem : compile_single_chunk_async ce.2 ce.1.1 ce.1.2
      ∈ chunkOutcomes chunks envs := List.mem_map_of_mem _ hce
  rw [hsingle] at hmem
  have herr : CompilerError.CompilerNotFound.toMessage
      ∈ (chunkOutcomes chunks envs).filterMap errEntry :=
    List.mem_filterMap.mpr ⟨_, hmem, rfl⟩
  refine ⟨hsingle, buildResult (chunkOutcomes chunks envs),
    compile_chunks_async_eq chunks envs options hp hlen, ?_, ?_⟩
  · rw [buildResult_errors]
    exact herr
  · rw [buildResult_success]
    cases hfe : (chunkOutcomes chunks envs).filterMap errEntry with
    | nil => rw [hfe] at herr; simp at herr
    | cons a l => rfl

/-- Witness for the amended C4 at a concrete single-chunk run. -/
theorem compiler_not_found_accumulated_witness :
    1 ≤ (wOptions 1).max_parallel ∧
    (((wConfig1, wMeta 0 1), wEnvNotFound)
      ∈ ([(wConfig1, wMeta 0 1)] : List (CompilerConfig × ChunkMetadata)).zip
          [wEnvNotFound]) ∧
    ∃ res, compile_chunks_async [(wConfig1, wMeta 0 1)] [wEnvNotFound]
        (wOptions 1) = some res ∧
      CompilerError.CompilerNotFound.toMessage ∈ res.errors ∧
      res.success = false := by
  refine ⟨by decide, by decide, ?_⟩
  obtain ⟨_, res, h1, h2, h3⟩ :=
    compiler_not_found_accumulated [(wConfig1, wMeta 0 1)] [wEnvNotFound]
      (wOptions 1) (by decide) rfl ((wConfig1, wMeta 0 1), wEnvNotFound)
      (by decide) rfl rfl rfl
  exact ⟨res, h1, h2, h3⟩

/-! ## Claim C5: the chunk success contract -/

/-- Counterexample for C5 as stated: the compiler process exits 0 but the
output file does not exist, yet the chunk is recorded as a success (with an
empty rule list and no `error_message`), not as a chunk-level failure. -/
theorem chunk_success_contract_cex :
    wEnvNoOutput.output_file_exists = false ∧
    wEnvNoOutput.run_result = .finished
      { status_success := true, exit_code := some 0, stderr := "" } ∧
    compile_single_chunk_async wEnvNoOutput wConfig1 (wMeta 0 1)
      = .ok ([], { wMeta 0 1 with
          success := true
          elapsed_ms := some 0
          actual_rules := some 0
          output_path := some "/tmp/chunk-output-1.txt" }) :=
  ⟨rfl, rfl, rfl⟩

/-- (C5 amended) A chunk execution is recorded as successful exactly on exit
status 0 (once config write, compiler resolution and process spawn
succeeded): with exit 0 and a missing output file, the chunk still succeeds,
with an empty rule list, `actual_rules = 0` and no error message. -/
theorem chunk_success_missing_output (env : ChunkEnv) (config : CompilerConfig)
    (md : ChunkMetadata) (output : ProcessOutput)
    (hw : env.write_error = none)
    (hcmd : env.which_hostlist.isSome = true ∨ env.which_npx.isSome = true)
    (hrun : env.run_result = .finished output)
    (hsucc : output.status_success = true)
    (hout : env.output_file_exists = false) :
    compile_single_chunk_async env config md
      = .ok ([], { md with
          success := true
          elapsed_ms := some 0
          actual_rules := some 0
          output_path := some env.output_path }) := by
  rcases hwh : env.which_hostlist with _ | cp
  · rcases hwn : env.which_npx with _ | np
    · rw [hwh, hwn] at hcmd
      simp at hcmd
    · simp [compile_single_chunk_async, hw, get_compiler_command, hwh, hwn,
        hrun, hsucc, hout]
  · simp [compile_single_chunk_async, hw, get_compiler_command, hwh, hrun,
      hsucc, hout]

/-- Witness for the amended C5 at the concrete missing-output environment. -/
theorem chunk_success_missing_output_witness :
    wEnvNoOutput.write_error = none ∧
    (wEnvNoOutput.which_hostlist.isSome = true ∨
      wEnvNoOutput.which_npx.isSome = true) ∧
    wEnvNoOutput.output_file_exists = false ∧
    compile_single_chunk_async wEnvNoOutput wConfig1 (wMeta 0 1)
      = .ok ([], { wMeta 0 1 with
          success := true
          elapsed_ms := some 0
          actual_rules := some 0
          output_path := some wEnvNoOutput.output_path }) :=
  ⟨rfl, Or.inl rfl, rfl,
    chunk_success_missing_output wEnvNoOutput wConfig1 (wMeta 0 1)
      { status_success := true, exit_code := some 0, stderr := "" }
      rfl (Or.inl rfl) rfl rfl rfl⟩

/-! ## Claim C9: the max_parallel ≥ 1 precondition -/

/-- (C9) With `max_parallel ≥ 1`, `split_into_chunks` and the batch loop of
`compile_chunks_async` are well defined (`some`) for every configuration;
the `ChunkingOptions` API does not enforce this (`with_max_parallel` accepts
0); and with `max_parallel = 0` and a non-empty source/chunk list both
functions panic (modelled as `none`). -/
theorem max_parallel_contract :
    (∀ (config : CompilerConfig) (options : ChunkingOptions),
      1 ≤ options.max_parallel → (split_into_chunks config options).isSome = true) ∧
    (∀ (chunks : List (CompilerConfig × ChunkMetadata)) (envs : List ChunkEnv)
        (options : ChunkingOptions),
      1 ≤ options.max_parallel →
      (compile_chunks_async chunks envs options).isSome = true) ∧
    (∀ (options : ChunkingOptions) (m : Nat),
      (options.with_max_parallel m).max_parallel = m) ∧
    (∀ (config : CompilerConfig) (options : ChunkingOptions),
      config.sources ≠ [] → options.max_parallel = 0 →
      split_into_chunks config options = none) ∧
    (∀ (chunks : List (CompilerConfig × ChunkMetadata)) (envs : List ChunkEnv)
        (options : ChunkingOptions),
      chunks ≠ [] → options.max_parallel = 0 →
      compile_chunks_async chunks envs options = none) := by
  refine ⟨?_, ?_, ?_, ?_, ?_⟩
  · intro config options h
    unfold split_into_chunks
    split
    · rfl
    · cases hst : options.strategy <;>
        · show (split_by_source config options).isSome = true
          unfold split_by_source
          rw [if_neg (by omega)]
          rfl
  · intro chunks envs options h
    unfold compile_chunks_async
    rw [if_neg (by omega)]
    rfl
  · intro options m
    rfl
  · intro config options hne h0
    unfold split_into_chunks
    rw [if_neg (by simp [isEmpty_false_of_ne_nil config.sources hne])]
    cases hst : options.strategy <;>
      · show split_by_source config options = none
        unfold split_by_source
        rw [if_pos h0]
  · intro chunks envs options hne h0
    unfold compile_chunks_async
    rw [if_pos h0]

/-- Witness for C9 at concrete inputs. -/
theorem max_parallel_contract_witness :
    1 ≤ (wOptions 2).max_parallel ∧
    (split_into_chunks wConfig3 (wOptions 2)).isSome = true ∧
    (compile_chunks_async [(wConfig1, wMeta 0 1)] [wEnvOk]
      (wOptions 2)).isSome = true ∧
    ((wOptions 2).with_max_parallel 0).max_parallel = 0 ∧
    wConfig3.sources ≠ [] ∧
    split_into_chunks wConfig3 (wOptions 0) = none ∧
    compile_chunks_async [(wConfig1, wMeta 0 1)] [wEnvOk] (wOptions 0) = none := by
  refine ⟨by decide,
    max_parallel_contract.1 wConfig3 (wOptions 2) (by decide),
    max_parallel_contract.2.1 [(wConfig1, wMeta 0 1)] [wEnvOk] (wOptions 2)
      (by decide),
    max_parallel_contract.2.2.1 (wOptions 2) 0,
    by decide,
    max_parallel_contract.2.2.2.1 wConfig3 (wOptions 0) (by decide) rfl,
    max_parallel_contract.2.2.2.2 [(wConfig1, wMeta 0 1)] [wEnvOk] (wOptions 0)
      (by decide) rfl⟩

/-! ## Claim C7: dispatch short-circuiting -/

theorem dispatchLoop_stops (call : CompilationEventHandler → α → α)
    (flag : α → Bool) :
    ∀ (pre : List CompilationEventHandler) (h : CompilationEventHandler)
      (post : List CompilationEventHandler) (args : α),
      NoStop call flag pre args →
      flag (call h (runAll call pre args)) = true →
      dispatchLoop call flag (pre ++ h :: post) args
        = call h (runAll call pre args) := by
  intro pre
  induction pre with
  | nil =>
    intro h post args _ hflag
    have hflag1 : flag (call h args) = true := hflag
    show dispatchLoop call flag (h :: post) args = call h args
    simp only [dispatchLoop]
    rw [if_pos hflag1]
  | cons g gs ih =>
    intro h post args hns hflag
    obtain ⟨hg, hns'⟩ := hns
    show dispatchLoop call flag (g :: (gs ++ h :: post)) args = _
    simp only [dispatchLoop]
    rw [if_neg (by simp [hg])]
    exact ih h post (call g args) hns' hflag

/-- (C7) For each stage with a short-circuit flag (`abort` for validation,
`cancel` for compilation-starting, `skip` for source-loading and
chunk-started): handlers run in registration order, and once a handler sets
the flag the dispatch returns that handler's args immediately — the result
is the same for every list of later-registered handlers, which are never
invoked on that dispatch. -/
theorem dispatch_short_circuit :
    (∀ (pre : List CompilationEventHandler) (h : CompilationEventHandler)
        (post : List CompilationEventHandler) (args : ValidationEventArgs),
      NoStop (fun hh a => hh.on_validation a) (fun a => a.abort) pre args →
      (h.on_validation (runAll (fun hh a => hh.on_validation a) pre args)).abort
        = true →
      EventDispatcher.raise_validation ⟨pre ++ h :: post⟩ args
        = h.on_validation (runAll (fun hh a => hh.on_validation a) pre args)) ∧
    (∀ (pre : List CompilationEventHandler) (h : CompilationEventHandler)
        (post : List CompilationEventHandler) (args : CompilationStartedEventArgs),
      NoStop (fun hh a => hh.on_compilation_starting a) (fun a => a.cancel) pre args →
      (h.on_compilation_starting
          (runAll (fun hh a => hh.on_compilation_starting a) pre args)).cancel
        = true →
      EventDispatcher.raise_compilation_starting ⟨pre ++ h :: post⟩ args
        = h.on_compilation_starting
            (runAll (fun hh a => hh.on_compilation_starting a) pre args)) ∧
    (∀ (pre : List CompilationEventHandler) (h : CompilationEventHandler)
        (post : List CompilationEventHandler) (args : SourceLoadingEventArgs),
      NoStop (fun hh a => hh.on_source_loading a) (fun a => a.skip) pre args →
      (h.on_source_loading
          (runAll (fun hh a => hh.on_source_loading a) pre args)).skip = true →
      EventDispatcher.raise_source_loading ⟨pre ++ h :: post⟩ args
        = h.on_source_loading
            (runAll (fun hh a => hh.on_source_loading a) pre args)) ∧
    (∀ (pre : List CompilationEventHandler) (h : CompilationEventHandler)
        (post : List CompilationEventHandler) (args : ChunkStartedEventArgs),
      NoStop (fun hh a => hh.on_chunk_started a) (fun a => a.skip) pre args →
      (h.on_chunk_started
          (runAll (fun hh a => hh.on_chunk_started a) pre args)).skip = true →
      EventDispatcher.raise_chunk_started ⟨pre ++ h :: post⟩ args
        = h.on_chunk_started
            (runAll (fun hh a => hh.on_chunk_started a) pre args)) := by
  refine ⟨?_, ?_, ?_, ?_⟩ <;>
    · intro pre h post args hns hflag
      exact dispatchLoop_stops _ _ pre h post args hns hflag

/-- Witness for C7: a counting handler, then a flag-setting handler, then
another counting handler; dispatch returns the flag-setter's args and the
trailing handler never runs, at each of the four stages. -/
theorem dispatch_short_circuit_witness :
    NoStop (fun hh a => hh.on_validation a) (fun a => a.abort)
      [wHandlerCount] wValArgs ∧
    (wHandlerStop.on_validation
      (runAll (fun hh a => hh.on_validation a) [wHandlerCount] wValArgs)).abort
      = true ∧
    EventDispatcher.raise_validation ⟨[wHandlerCount, wHandlerStop, wHandlerCount]⟩
        wValArgs
      = wHandlerStop.on_validation
          (runAll (fun hh a => hh.on_validation a) [wHandlerCount] wValArgs) ∧
    EventDispatcher.raise_compilation_starting ⟨[wHandlerStop, wHandlerCount]⟩
        wStartArgs
      = wHandlerStop.on_compilation_starting
          (runAll (fun hh a => hh.on_compilation_starting a) [] wStartArgs) ∧
    EventDispatcher.raise_source_loading ⟨[wHandlerStop, wHandlerCount]⟩ wLoadArgs
      = wHandlerStop.on_source_loading
          (runAll (fun hh a => hh.on_source_loading a) [] wLoadArgs) ∧
    EventDispatcher.raise_chunk_started ⟨[wHandlerStop, wHandlerCount]⟩ wChunkArgs
      = wHandlerStop.on_chunk_started
          (runAll (fun hh a => hh.on_chunk_started a) [] wChunkArgs) := by
  refine ⟨⟨rfl, trivial⟩, rfl, ?_, ?_, ?_, ?_⟩
  · exact dispatch_short_circuit.1 [wHandlerCount] wHandlerStop [wHandlerCount]
      wValArgs ⟨rfl, trivial⟩ rfl
  · exact dispatch_short_circuit.2.1 [] wHandlerStop [wHandlerCount] wStartArgs
      trivial rfl
  · exact dispatch_short_circuit.2.2.1 [] wHandlerStop [wHandlerCount] wLoadArgs
      trivial rfl
  · exact dispatch_short_circuit.2.2.2 [] wHandlerStop [wHandlerCount] wChunkArgs
      trivial rfl

/-! ## Claim C8: release idempotence -/

/-- (C8) `FileLockHandle.release` is idempotent: after a first release the
handle is inactive; a second release (and the release performed by drop) is
a no-op that changes nothing; and drop always invokes release, so release
runs on every exit path. -/
theorem file_lock_release_idempotent :
    ∀ h : FileLockHandle,
      h.release.is_active = false ∧
      h.release.release = h.release ∧
      h.dropHandle = h.release ∧
      h.release.dropHandle = h.release := by
  intro h
  unfold FileLockHandle.dropHandle
  by_cases ha : h.is_active = true
  · refine ⟨?_, ?_, rfl, ?_⟩ <;> simp [FileLockHandle.release, ha]
  · have ha' : h.is_active = false := by simpa using ha
    refine ⟨?_, ?_, rfl, ?_⟩ <;> simp [FileLockHandle.release, ha']

/-! ## Claim C10: the lock table counts acquisitions, not held locks -/

theorem insertAL_length (key val : String) (l : List (String × String)) :
    l.length ≤ (insertAL key val l).length := by
  unfold insertAL
  split
  · rw [List.length_map]
  · rw [List.length_append]
    omega

theorem acquire_lock_locks (svc : FileLockService) (env : AcquireEnv)
    (lock_type : FileLockType) (compute_hash : Bool) (svc1 : FileLockService)
    (handle : FileLockHandle)
    (hacq : svc.acquire_lock env lock_type compute_hash = some (svc1, handle)) :
    ∃ full_path, env.canonical_path = some full_path ∧
      svc1.active_locks = insertAL env.lock_id full_path svc.active_locks ∧
      handle.lock_id = env.lock_id ∧ handle.file_path = full_path ∧
      handle.is_active = true := by
  unfold FileLockService.acquire_lock at hacq
  split at hacq
  next heq => simp at hacq
  next full_path heq =>
    split at hacq
    next => simp at hacq
    next =>
      split at hacq
      next => simp at hacq
      next =>
        split at hacq
        next => simp at hacq
        next =>
          rw [Option.some.injEq, Prod.mk.injEq] at hacq
          obtain ⟨h1, h2⟩ := hacq
          exact ⟨full_path, heq, by rw [← h1], by rw [← h2], by rw [← h2],
            by rw [← h2]⟩

/-- (C10) Every successful `acquire_lock` with a fresh lock id appends
exactly one entry to `active_locks`; releasing or dropping a
`FileLockHandle` leaves the service's lock table unchanged;
`release_all_locks` empties it; and the count can only decrease through
`release_all_locks` — so `active_lock_count` counts locks ever acquired,
not locks currently held. -/
theorem lock_table_monotonic :
    (∀ (svc : FileLockService) (env : AcquireEnv) (lock_type : FileLockType)
        (compute_hash : Bool) (svc1 : FileLockService) (handle : FileLockHandle),
      env.lock_id ∉ svc.active_locks.map Prod.fst →
      svc.acquire_lock env lock_type compute_hash = some (svc1, handle) →
      svc1.active_locks = svc.active_locks ++ [(env.lock_id, handle.file_path)] ∧
      svc1.active_lock_count = svc.active_lock_count + 1 ∧
      handle.is_active = true) ∧
    (∀ (svc : FileLockService) (h : FileLockHandle),
      LockOp.apply svc (.releaseHandle h) = svc ∧
      LockOp.apply svc (.dropOfHandle h) = svc) ∧
    (∀ svc : FileLockService, svc.release_all_locks.active_lock_count = 0) ∧
    (∀ (svc : FileLockService) (op : LockOp),
      (LockOp.apply svc op).active_lock_count < svc.active_lock_count →
      op = .releaseAll) := by
  refine ⟨?_, ?_, ?_, ?_⟩
  · intro svc env lock_type compute_hash svc1 handle hfresh hacq
    obtain ⟨fp, hcp, hlocks, hlid, hfp, hact⟩ :=
      acquire_lock_locks svc env lock_type compute_hash svc1 handle hacq
    have hins : insertAL env.lock_id fp svc.active_locks
        = svc.active_locks ++ [(env.lock_id, fp)] := by
      unfold insertAL
      rw [if_neg ?_]
      intro hany
      rw [List.any_eq_true] at hany
      obtain ⟨p, hp, hpk⟩ := hany
      rw [decide_eq_true_eq] at hpk
      exact hfresh (hpk ▸ List.mem_map_of_mem Prod.fst hp)
    refine ⟨?_, ?_, hact⟩
    · rw [hlocks, hins, hfp]
    · unfold FileLockService.active_lock_count
      rw [hlocks, hins, List.length_append]
      rfl
  · intro svc h
    exact ⟨rfl, rfl⟩
  · intro svc
    rfl
  · intro svc op hlt
    cases op with
    | acquire env lock_type compute_hash =>
      exfalso
      cases hacq : svc.acquire_lock env lock_type compute_hash with
      | none =>
        simp only [LockOp.apply, hacq] at hlt
        exact Nat.lt_irrefl _ hlt
      | some pr =>
        obtain ⟨svc1, handle⟩ := pr
        obtain ⟨fp, _, hlocks, _, _, _⟩ :=
          acquire_lock_locks svc env lock_type compute_hash svc1 handle hacq
        have hle := insertAL_length env.lock_id fp svc.active_locks
        simp only [LockOp.apply, hacq, FileLockService.active_lock_count,
          hlocks] at hlt
        omega
    | releaseHandle h =>
      exact absurd hlt (Nat.lt_irrefl _)
    | dropOfHandle h =>
      exact absurd hlt (Nat.lt_irrefl _)
    | releaseAll =>
      rfl

/-- Witness for C10: acquiring on a service that already holds one lock
appends the new entry and raises the count from 1 to 2; and a genuine
decrease (via `release_all_locks`) is pinned to the `releaseAll`
operation. -/
theorem lock_table_monotonic_witness :
    ("lock-1" ∉ wService1.active_locks.map Prod.fst) ∧
    (∃ svc1 handle,
      wService1.acquire_lock wAcquireEnv FileLockType.read true
        = some (svc1, handle) ∧
      svc1.active_locks = wService1.active_locks ++ [("lock-1", handle.file_path)] ∧
      svc1.active_lock_count = wService1.active_lock_count + 1 ∧
      handle.is_active = true) ∧
    (LockOp.apply wService1 LockOp.releaseAll).active_lock_count
      < wService1.active_lock_count ∧
    LockOp.releaseAll = LockOp.releaseAll := by
  have hacq : wService1.acquire_lock wAcquireEnv FileLockType.read true
      = some ({ active_locks := [("lock-0", "/tmp/other.txt"),
          ("lock-1", "/tmp/list.txt")] },
        { lock_id := "lock-1", file_path := "/tmp/list.txt",
          lock_type := FileLockType.read, acquired_at := 0,
          content_hash := some "abc123", file := some (), is_active := true }) := by
    decide
  obtain ⟨hA, hB, hC⟩ :=
    lock_table_monotonic.1 wService1 wAcquireEnv FileLockType.read true _ _
      (by decide) hacq
  refine ⟨by decide, ⟨_, _, hacq, hA, hB, hC⟩, by decide, ?_⟩
  exact lock_table_monotonic.2.2.2 wService1 LockOp.releaseAll (by decide)

end RulesCompiler
